import Mathlib

/-!
Verification of the chat-api-client core against its specification.

The JavaScript source is shallowly embedded: each JS function under scrutiny is
translated into an executable Lean definition over an inductive model of JS
values (`Val`).  Definitions suffixed `Spec` are *not* translations of the
code; they formalise the wording of the specification and are compared with
the code-derived definitions in refinement theorems.

Modelling conventions, used throughout:
 * JS objects are association lists of string keys; lodash `isEqual` is
   modelled as structural equality (`veq`).  The key-order insensitivity of
   lodash object comparison is not exercised by any claim proved here.
 * A JS function that can throw is modelled in the `Except String` monad;
   property access on `null`/`undefined` raises a TypeError.
 * Numbers are modelled as `Int` (the code only uses integral ids, counters
   and millisecond durations; no floating point behaviour is relied upon).
-/

/-- Model of a JSON-ish JavaScript value as handled by the client. -/
inductive Val where
  | vNull
  | vUndef
  | vBool (b : Bool)
  | vInt (n : Int)
  | vStr (s : String)
  | vArr (elems : List Val)
  | vObj (fields : List (String × Val))
deriving Repr

mutual

/-- Lodash `isEqual` (deep value equality), modelled structurally. -/
def veq : Val → Val → Bool
  | .vNull, .vNull => true
  | .vUndef, .vUndef => true
  | .vBool a, .vBool b => a == b
  | .vInt a, .vInt b => a == b
  | .vStr a, .vStr b => a == b
  | .vArr xs, .vArr ys => veqList xs ys
  | .vObj xs, .vObj ys => veqFields xs ys
  | _, _ => false

/-- Deep equality of two JS arrays, element by element. -/
def veqList : List Val → List Val → Bool
  | [], [] => true
  | x :: xs, y :: ys => veq x y && veqList xs ys
  | _, _ => false

/-- Deep equality of the field lists of two JS objects. -/
def veqFields : List (String × Val) → List (String × Val) → Bool
  | [], [] => true
  | (k, x) :: xs, (l, y) :: ys => k == l && veq x y && veqFields xs ys
  | _, _ => false

end

/-- Lodash `isPlainObject`: true exactly for object literals. -/
def isPlainObject : Val → Bool
  | .vObj _ => true
  | _ => false

/-- First value stored under a key of a JS object field list. -/
def lookupField : List (String × Val) → String → Option Val
  | [], _ => none
  | (k, v) :: rest, key => if k == key then some v else lookupField rest key

/-- JS property access `target[key]`.  Reading a property of `null` or
`undefined` throws a TypeError; a missing key on an object reads as
`undefined`; property access on other primitives also yields `undefined`
(string/array index access is not exercised by the filters modelled here). -/
def jsGet : Val → String → Except String Val
  | .vNull, _ => .error ("TypeError: cannot read properties of null")
  | .vUndef, _ => .error ("TypeError: cannot read properties of undefined")
  | .vObj fs, key => .ok ((lookupField fs key).getD .vUndef)
  | _, _ => .ok .vUndef

mutual

/-- Embedding of `isSubset(subset, target)` from APIClient
(src/unnamed/part_016, lines 1865-1877):

    export function isSubset(subset, target) \x7b
        return Object.entries(subset).reduce((isSub, [ key, value ]) => \x7b
            if(!isSub) \x7b return false; \x7d
            if(isPlainObject(value)) \x7b
                return isSubset(value, target[key]);
            \x7d else \x7b
                return isEqual(value, target[key]);
            \x7d
        \x7d, true)
    \x7d

`Object.entries` throws on `null`/`undefined` and yields `[]` on other
primitives.  (A string or array `subset` never occurs: top-level callers pass
plain objects and the recursion is guarded by `isPlainObject`.)  Once the
accumulator is `false` the reduce callback returns early, so later entries are
not evaluated and cannot throw. -/
def isSubset (subset target : Val) : Except String Bool :=
  match subset with
  | .vNull => .error ("TypeError: Object.entries called on null")
  | .vUndef => .error ("TypeError: Object.entries called on undefined")
  | .vObj fs => isSubsetEntries fs target
  | _ => .ok true

/-- One pass of the `reduce` inside `isSubset` over the remaining entries. -/
def isSubsetEntries : List (String × Val) → Val → Except String Bool
  | [], _ => .ok true
  | (key, value) :: rest, target =>
      match jsGet target key with
      | .error e => .error e
      | .ok tv =>
        match (if isPlainObject value then isSubset value tv else .ok (veq value tv)) with
        | .error e => .error e
        | .ok true => isSubsetEntries rest target
        | .ok false => .ok false

end

/-- Spec-side property read: a missing key, or a read on any non-object,
yields `undefined` (never throws). -/
def specGet (target : Val) (key : String) : Val :=
  match target with
  | .vObj fs => (lookupField fs key).getD .vUndef
  | _ => .vUndef

mutual

/-- Modelled from the spec: the subset relation described for `isSubset` —
every key of the filter must be present in the target with a deep-equal value;
entries whose value is a nested plain object recurse into the target value at
that key (a missing key reads as `undefined`); arrays compare by value. -/
def subsetSpec : Val → Val → Bool
  | .vObj fs, target => subsetSpecEntries fs target
  | _, _ => true

/-- Spec-side subset relation over the remaining entries of the filter. -/
def subsetSpecEntries : List (String × Val) → Val → Bool
  | [], _ => true
  | (key, value) :: rest, target =>
      (if isPlainObject value then subsetSpec value (specGet target key)
       else veq value (specGet target key)) && subsetSpecEntries rest target

end

/-- Whenever `jsGet` does not throw it returns exactly the spec-side read. -/
theorem jsGet_ok_eq_specGet (t : Val) (k : String) (v : Val)
    (h : jsGet t k = .ok v) : v = specGet t k := by
  cases t <;> simp [jsGet, specGet] at h ⊢ <;> exact h.symm

example : isSubset (.vObj [("a", .vInt 1)]) (.vObj [("a", .vInt 1), ("b", .vInt 2)]) = .ok true := by rfl

mutual

/-- Whenever `isSubset` returns without throwing, its result is exactly the
spec-side subset relation. -/
theorem isSubset_ok_eq_subsetSpec (s t : Val) (r : Bool)
    (h : isSubset s t = .ok r) : r = subsetSpec s t := by
  cases s with
  | vNull => simp [isSubset] at h
  | vUndef => simp [isSubset] at h
  | vObj fs =>
      simp only [isSubset] at h
      simpa [subsetSpec] using isSubsetEntries_ok_eq_subsetSpecEntries fs t r h
  | vBool b => simp [isSubset, subsetSpec] at h ⊢; exact h
  | vInt n => simp [isSubset, subsetSpec] at h ⊢; exact h
  | vStr str => simp [isSubset, subsetSpec] at h ⊢; exact h
  | vArr xs => simp [isSubset, subsetSpec] at h ⊢; exact h

/-- Entry-list version of `isSubset_ok_eq_subsetSpec`. -/
theorem isSubsetEntries_ok_eq_subsetSpecEntries (l : List (String × Val)) (t : Val) (r : Bool)
    (h : isSubsetEntries l t = .ok r) : r = subsetSpecEntries l t := by
  match l with
  | [] =>
      simp [isSubsetEntries] at h
      simp [subsetSpecEntries, ← h]
  | (key, value) :: rest =>
      simp only [isSubsetEntries] at h
      cases hg : jsGet t key with
      | error e => rw [hg] at h; exact absurd h (by simp)
      | ok tv =>
        rw [hg] at h
        have htv : tv = specGet t key := jsGet_ok_eq_specGet t key tv hg
        cases hp : isPlainObject value with
        | true =>
            rw [hp] at h
            simp only [if_true] at h
            cases hin : isSubset value tv with
            | error e => rw [hin] at h; exact absurd h (by simp)
            | ok b =>
              rw [hin] at h
              have hb : b = subsetSpec value tv := isSubset_ok_eq_subsetSpec value tv b hin
              cases b with
              | true =>
                  have ih := isSubsetEntries_ok_eq_subsetSpecEntries rest t r h
                  simp [subsetSpecEntries, hp, ← htv, ← hb, ih]
              | false =>
                  simp only [Except.ok.injEq] at h
                  simp [subsetSpecEntries, hp, ← htv, ← hb, ← h]
        | false =>
            rw [hp] at h
            simp only [if_false, Bool.false_eq_true] at h
            cases hv : veq value tv with
            | true =>
                rw [hv] at h
                have ih := isSubsetEntries_ok_eq_subsetSpecEntries rest t r h
                simp [subsetSpecEntries, hp, ← htv, hv, ih]
            | false =>
                rw [hv] at h
                simp only [Except.ok.injEq] at h
                simp [subsetSpecEntries, hp, ← htv, hv, ← h]

end

/-- Claim C4 (counterexample): the claim states that `isSubset` returns
`false` rather than failing whenever a key of the filter is missing from the
target.  For the filter `\x7bx: \x7by: 1\x7d\x7d` against the empty target the key `x` is
missing, yet `isSubset` throws a TypeError (it reads a property of
`undefined`) instead of returning `false`. -/
theorem c4_isSubset_counterexample :
    isSubset (Val.vObj [("x", Val.vObj [("y", Val.vInt 1)])]) (Val.vObj []) =
      .error ("TypeError: cannot read properties of undefined") := by rfl

/-- Claim C4 (amended): whenever `isSubset(a, b)` returns without throwing it
returns `true` exactly when every key of `a` matches `b` — nested plain-object
values recurse against `b`'s value at that key (a missing key reads as
`undefined`), all other values must be deep-equal, arrays compared by value —
and the concrete example from the spec evaluates to `true`.  (When a
non-empty plain-object value of `a` meets a missing key, `isSubset` throws a
TypeError instead of returning `false`; see the counterexample.) -/
theorem c4_isSubset_amended :
    (∀ a b r, isSubset a b = .ok r → r = subsetSpec a b) ∧
    isSubset
      (Val.vObj [("roomId", Val.vStr ("3735")), ("ids", Val.vArr [Val.vInt 488566])])
      (Val.vObj [("roomId", Val.vStr ("3735")), ("ids", Val.vArr [Val.vInt 488566]),
                 ("installationId", Val.vInt 385654), ("shard", Val.vInt 7)]) = .ok true :=
  ⟨fun a b r h => isSubset_ok_eq_subsetSpec a b r h, by rfl⟩

/-- Witness for `c4_isSubset_amended` at a concrete input. -/
theorem c4_isSubset_amended_witness :
    true = subsetSpec (Val.vObj [("a", Val.vInt 1)]) (Val.vObj [("a", Val.vInt 1)]) :=
  c4_isSubset_amended.1 (Val.vObj [("a", Val.vInt 1)]) (Val.vObj [("a", Val.vInt 1)]) true (by rfl)

/-- Does the character sequence begin with the pattern? -/
def listStartsWith : List Char → List Char → Bool
  | [], _ => true
  | _ :: _, [] => false
  | p :: ps, c :: cs => p == c && listStartsWith ps cs

/-- Does the pattern occur as a contiguous subsequence (substring)? -/
def listContainsSeq (pat : List Char) : List Char → Bool
  | [] => listStartsWith pat []
  | c :: rest => listStartsWith pat (c :: rest) || listContainsSeq pat rest

/-- RegExp.test for a metacharacter-free pattern is plain substring search.
Every pattern the client builds (an at-sign followed by a handle, or a frame
name) is metacharacter-free. -/
def regexTestLiteral (pattern target : String) : Bool :=
  listContainsSeq pattern.data target.data

/-- Generic JS truthiness of a value. -/
def jsTruthy : Val → Bool
  | .vNull => false
  | .vUndef => false
  | .vBool b => b
  | .vInt n => n != 0
  | .vStr s => s != ""
  | .vArr _ => true
  | .vObj _ => true

/-- The `type` field of a frame filter: a string or a RegExp object
(modelled by its source pattern). -/
inductive FilterType where
  | tstr (s : String)
  | tregex (pattern : String)
deriving Repr

/-- A frame filter object, as accepted by `APIClient.matchFrame`
(src/unnamed/part_016, lines 1741-1778). -/
structure FrameFilter where
  ftype : Option FilterType := none
  fnonce : Option Int := none
  fcontents : Option Val := none

/-- The filter argument of `matchFrame`: a string shorthand or a filter
object.  (Any other input type throws an invalid-filter error in the source;
no caller passes one.) -/
inductive FilterInput where
  | fstr (s : String)
  | fobj (f : FrameFilter)

/-- A socket frame envelope as built by `APIClient.createFrame`. -/
structure Frame where
  contentType : String
  sourceName : String
  sourceVersion : String
  nonce : Option Int
  name : String
  contents : Val
deriving Repr

/-- JS truthiness of `filter.type`: absent and the empty string are falsy; a
RegExp object is always truthy. -/
def filterTypeTruthy : Option FilterType → Bool
  | none => false
  | some (.tstr s) => s != ""
  | some (.tregex _) => true

/-- The source tests `typeof filter.type instanceof RegExp`.  `typeof`
evaluates to a string and a string is never an instance of `RegExp`, so this
condition is `false` for every filter type — including genuine RegExp
filters.  (The author surely meant `filter.type instanceof RegExp`.) -/
def typeofTypeIsRegExp (_ft : FilterType) : Bool := false

/-- Pattern text carried by a filter type. -/
def FilterType.patternText : FilterType → String
  | .tstr s => s
  | .tregex p => p

/-- JS strict equality `filter.nonce === frame.nonce` (an `Int` is never
strictly equal to `null`). -/
def nonceEq (n : Int) : Option Int → Bool
  | some m => n == m
  | none => false

/-- Embedding of the object-filter part of `APIClient.matchFrame`
(src/unnamed/part_016, lines 1755-1777).  The four `if` blocks push their
verdicts onto `matches` in source order; an empty `matches` list throws. -/
def matchFrameObj (f : FrameFilter) (frame : Frame) : Except String Bool :=
  let m1 : List Bool :=
    match f.ftype with
    | some (.tstr s) => if s != "" then [s == frame.name] else []
    | _ => []
  let m2 : List Bool :=
    match f.ftype with
    | some ft =>
        if filterTypeTruthy (some ft) && typeofTypeIsRegExp ft then
          [regexTestLiteral ft.patternText frame.name]
        else []
    | none => []
  let m3 : List Bool :=
    match f.fnonce with
    | some n => if n != 0 then [nonceEq n frame.nonce] else []
    | none => []
  match (match f.fcontents with
         | some c => if jsTruthy c then (isSubset c frame.contents).map (fun b => [b]) else .ok []
         | none => .ok []) with
  | .error e => .error e
  | .ok m4 =>
    let verdicts := m1 ++ m2 ++ m3 ++ m4
    if verdicts.isEmpty then
      .error ("No filters specified in matchFrame. If you want to match all frames, listen for frame event.")
    else
      .ok (verdicts.all id)

/-- Embedding of `APIClient.matchFrame` (src/unnamed/part_016, lines
1741-1778): the string `"*"` matches everything, any other string is
shorthand for a type filter. -/
def matchFrame (filter : FilterInput) (frame : Frame) : Except String Bool :=
  match filter with
  | .fstr s => if s == "*" then .ok true else matchFrameObj { ftype := some (.tstr s) } frame
  | .fobj f => matchFrameObj f frame

/-- Claim C8: false on the code.  For every RegExp-typed filter and every
frame, `matchFrame` throws the no-filters error instead of testing the regex
against the frame name: the string-type branch does not fire (the type is not
a string) and the regex branch is dead because its guard
`typeof filter.type instanceof RegExp` is always false, so no verdict is ever
pushed and the empty-filter error is raised — contradicting both the claim
and the doc comment of `matchFrame` itself. -/
theorem c8_matchFrame_regex_throws (pattern : String) (frame : Frame) :
    matchFrame (.fobj { ftype := some (.tregex pattern) }) frame =
      .error ("No filters specified in matchFrame. If you want to match all frames, listen for frame event.") := by
  simp [matchFrame, matchFrameObj, typeofTypeIsRegExp, filterTypeTruthy]

/-- Version string of the package (package.json, "version": "0.4.2"). -/
def pkgVersion : String := "0.4.2"

/-- Embedding of `APIClient.createFrame(type, contents, nonced = true)`
(src/unnamed/part_016, lines 1706-1717).  The module-global counter `NONCE`
is threaded explicitly: `++NONCE` increments and yields the new value; a
frame with `nonced = false` carries `nonce: null` and leaves the counter
untouched. -/
def createFrame (ftype : String) (contents : Val) (nonced : Bool) (nonceCounter : Nat) :
    Frame × Nat :=
  let counter := if nonced then nonceCounter + 1 else nonceCounter
  ({ contentType := "object"
     sourceName := "Teamwork Chat Node API"
     sourceVersion := pkgVersion
     nonce := if nonced then some (counter : Int) else none
     name := ftype
     contents := contents }, counter)

/-- One call to `createFrame`: name, contents and the `nonced` flag. -/
structure FrameCall where
  callName : String
  callContents : Val
  nonced : Bool

/-- The frames produced by a sequence of `createFrame` calls sharing the
process-wide counter, together with the final counter value. -/
def runCreateFrames : List FrameCall → Nat → List Frame × Nat
  | [], ctr => ([], ctr)
  | c :: rest, ctr =>
      let fc := createFrame c.callName c.callContents c.nonced ctr
      let further := runCreateFrames rest fc.2
      (fc.1 :: further.1, further.2)

/-- The counter never decreases over a sequence of `createFrame` calls. -/
theorem runCreateFrames_ctr_le (calls : List FrameCall) (ctr : Nat) :
    ctr ≤ (runCreateFrames calls ctr).2 := by
  induction calls generalizing ctr with
  | nil => simp [runCreateFrames]
  | cons c rest ih =>
      have h := ih (createFrame c.callName c.callContents c.nonced ctr).2
      have h2 : ctr ≤ (createFrame c.callName c.callContents c.nonced ctr).2 := by
        simp only [createFrame]
        cases c.nonced <;> simp
      calc ctr ≤ _ := h2
        _ ≤ _ := h
      
/-- Every nonce handed out during a call sequence lies strictly above the
starting counter and at most at the final counter. -/
theorem runCreateFrames_nonce_bounds (calls : List FrameCall) (ctr : Nat) (f : Frame)
    (hf : f ∈ (runCreateFrames calls ctr).1) (n : Int) (hn : f.nonce = some n) :
    (ctr : Int) < n ∧ n ≤ ((runCreateFrames calls ctr).2 : Int) := by
  induction calls generalizing ctr with
  | nil => simp [runCreateFrames] at hf
  | cons c rest ih =>
      simp only [runCreateFrames, List.mem_cons] at hf
      cases hf with
      | inl h0 =>
          subst h0
          cases hc : c.nonced with
          | false => simp [createFrame, hc] at hn
          | true =>
              simp only [createFrame, hc, if_true] at hn ⊢
              have hn2 : n = ((ctr + 1 : Nat) : Int) := by
                simpa using hn.symm
              subst hn2
              refine ⟨by exact_mod_cast Nat.lt_succ_self ctr, ?_⟩
              have := runCreateFrames_ctr_le rest (ctr + 1)
              simp only [runCreateFrames, createFrame, hc, if_true]
              exact_mod_cast this
      | inr hrest =>
          have hbounds := ih (createFrame c.callName c.callContents c.nonced ctr).2 hrest
          have hstep : ctr ≤ (createFrame c.callName c.callContents c.nonced ctr).2 := by
            simp only [createFrame]
            cases c.nonced <;> simp
          refine ⟨lt_of_le_of_lt (by exact_mod_cast hstep) hbounds.1, ?_⟩
          simpa [runCreateFrames] using hbounds.2

/-- Nonces of two frames produced in order by one counter are ordered. -/
theorem runCreateFrames_ordered (calls : List FrameCall) (ctr : Nat)
    (pre mid post : List Frame) (f1 f2 : Frame)
    (h : (runCreateFrames calls ctr).1 = pre ++ f1 :: (mid ++ f2 :: post))
    (n1 n2 : Int) (h1 : f1.nonce = some n1) (h2 : f2.nonce = some n2) : n1 < n2 := by
  induction calls generalizing ctr pre with
  | nil => simp [runCreateFrames] at h
  | cons c rest ih =>
      simp only [runCreateFrames] at h
      cases pre with
      | nil =>
          simp only [List.nil_append, List.cons.injEq] at h
          obtain ⟨hf0, hrest⟩ := h
          have hmem : f2 ∈ (runCreateFrames rest (createFrame c.callName c.callContents c.nonced ctr).2).1 := by
            rw [hrest]; simp
          have hb := runCreateFrames_nonce_bounds _ _ f2 hmem n2 h2
          cases hc : c.nonced with
          | false =>
              rw [← hf0] at h1
              simp [createFrame, hc] at h1
          | true =>
              rw [← hf0] at h1
              simp only [createFrame, hc, if_true] at h1 hb
              have hn1 : n1 = ((ctr + 1 : Nat) : Int) := by simpa using h1.symm
              subst hn1
              exact hb.1
      | cons p0 pre1 =>
          simp only [List.cons_append, List.cons.injEq] at h
          exact ih (createFrame c.callName c.callContents c.nonced ctr).2 pre1 h.2

/-- Claim C7: nonce monotonicity.  Along any sequence of `createFrame` calls
sharing the process-wide counter, any earlier frame that carries a nonce has a
strictly smaller nonce than any later one; a frame created with
`nonced = false` carries a null nonce and does not consume a counter value. -/
theorem c7_nonce_monotonic :
    (∀ (calls : List FrameCall) (ctr : Nat) (pre mid post : List Frame) (f1 f2 : Frame),
       (runCreateFrames calls ctr).1 = pre ++ f1 :: (mid ++ f2 :: post) →
       ∀ n1 n2 : Int, f1.nonce = some n1 → f2.nonce = some n2 → n1 < n2) ∧
    (∀ (t : String) (c : Val) (ctr : Nat),
       (createFrame t c false ctr).1.nonce = none ∧ (createFrame t c false ctr).2 = ctr) :=
  ⟨fun calls ctr pre mid post f1 f2 h n1 n2 h1 h2 =>
      runCreateFrames_ordered calls ctr pre mid post f1 f2 h n1 n2 h1 h2,
   fun t c ctr => ⟨by simp [createFrame], by simp [createFrame]⟩⟩

/-- Witness for `c7_nonce_monotonic`: two consecutive nonced frames receive
nonces 1 and 2. -/
theorem c7_nonce_monotonic_witness : (1 : Int) < 2 :=
  c7_nonce_monotonic.1 [⟨"ping", Val.vObj [], true⟩, ⟨"room.typing", Val.vObj [], true⟩] 0
    [] [] [] (createFrame ("ping") (Val.vObj []) true 0).1
    (createFrame ("room.typing") (Val.vObj []) true 1).1
    (by rfl) 1 2 (by rfl) (by rfl)

/-- Heartbeat constant PING_INTERVAL = 10000 ms (src/unnamed/part_016, line 418). -/
def PING_INTERVAL : Nat := 10000

/-- Heartbeat constant PING_MAX_ATTEMPT = 3 (src/unnamed/part_016, line 428). -/
def PING_MAX_ATTEMPT : Nat := 3

/-- Heartbeat constant PING_TIMEOUT = 3000 ms (src/unnamed/part_016, line 443). -/
def PING_TIMEOUT : Nat := 3000

/-- Embedding of the retry structure of `APIClient#nextPing(attempt = 0)`
(src/unnamed/part_016, lines 871-907) when every ping times out: the ping
sent at attempt index `attempt` times out after PING_TIMEOUT; if
`attempt < PING_MAX_ATTEMPT` the code calls `nextPing(attempt + 1)`
immediately, otherwise it rejects, which reaches the TimeoutError handler
that calls `close()` (which in turn emits the close event synchronously).
The function returns how many pings are sent, each costing PING_TIMEOUT,
before the connection is declared broken. -/
def pingsUntilBroken (attempt : Nat) : Nat :=
  if attempt < PING_MAX_ATTEMPT then pingsUntilBroken (attempt + 1) + 1 else 1
termination_by PING_MAX_ATTEMPT - attempt

/-- Time from the server's last pong until `close()` fires when the server
stops responding: the success path waits PING_INTERVAL (the `.delay`) before
`nextPing()` sends the next ping, and then every attempt times out. -/
def heartbeatCloseDelay : Nat :=
  PING_INTERVAL + pingsUntilBroken 0 * PING_TIMEOUT

/-- Claim C2: false on the code (code bug).  Because the initial ping of the
loop is itself attempt 0 and the guard is `attempt < PING_MAX_ATTEMPT`, four
pings (attempts 0,1,2,3) each time out before the connection is declared
broken, so `close` fires 22000 ms after the last response — not within the
19000 ms = PING_INTERVAL + PING_MAX_ATTEMPT × PING_TIMEOUT bound stated by
the claim and by the doc comment above PING_TIMEOUT in the source itself. -/
theorem c2_heartbeat_close_delay :
    pingsUntilBroken 0 = PING_MAX_ATTEMPT + 1 ∧
    heartbeatCloseDelay = 22000 ∧
    PING_INTERVAL + PING_MAX_ATTEMPT * PING_TIMEOUT = 19000 ∧
    19000 < heartbeatCloseDelay := by
  have h : pingsUntilBroken 0 = 4 := by
    simp [pingsUntilBroken, PING_MAX_ATTEMPT]
  refine ⟨by simp [h, PING_MAX_ATTEMPT], ?_, by simp [PING_INTERVAL, PING_MAX_ATTEMPT, PING_TIMEOUT], ?_⟩ <;>
    simp [heartbeatCloseDelay, h, PING_INTERVAL, PING_TIMEOUT]

/-- Reconnection back-off RECONNECT_INTERVAL = 3000 ms (src/unnamed/part_013, line 17). -/
def RECONNECT_INTERVAL : Nat := 3000

/-- Embedding of the event behaviour of `TeamworkChat#onDisconnect(attempt = 0)`
(src/unnamed/part_013, lines 161-203).  `connectResults` gives the outcome of
each successive `connect()` call.  If `forceClosed` is set the handler
returns at once.  Only attempt 0 emits the disconnect event.  After a failed
connect the handler waits RECONNECT_INTERVAL and recurses with attempt + 1.
After a successful connect the promise chain ends: the catch-up block that
would fetch updates, bump `monitor.reconnects` and emit the reconnect event
is commented out in the source, so success emits nothing. -/
def onDisconnectEvents (forceClosed : Bool) : Nat → List Bool → List String
  | attempt, connectResults =>
    if forceClosed then []
    else
      (if attempt = 0 then ["disconnect"] else []) ++
      (match connectResults with
       | [] => []
       | ok :: rest => if ok then [] else onDisconnectEvents forceClosed (attempt + 1) rest)

/-- Every event this handler ever emits is the disconnect event. -/
theorem onDisconnectEvents_all_disconnect (fc : Bool) (attempt : Nat) (outcomes : List Bool)
    (e : String) (he : e ∈ onDisconnectEvents fc attempt outcomes) : e = "disconnect" := by
  induction outcomes generalizing attempt with
  | nil =>
      simp only [onDisconnectEvents] at he
      by_cases hfc : fc = true <;> by_cases ha : attempt = 0 <;> simp [hfc, ha] at he <;> exact he
  | cons ok rest ih =>
      simp only [onDisconnectEvents] at he
      by_cases hfc : fc = true
      · simp [hfc] at he
      · simp only [Bool.not_eq_true] at hfc
        simp only [hfc, Bool.false_eq_true, if_false, List.mem_append] at he
        cases he with
        | inl h0 =>
            by_cases ha : attempt = 0 <;> simp [ha] at h0 <;> exact h0
        | inr h1 =>
            cases ok with
            | true => simp at h1
            | false => exact ih (attempt + 1) (by simpa [onDisconnectEvents, hfc] using h1)

/-- The disconnect event is emitted once when starting at attempt 0 and never
by the retry recursion. -/
theorem onDisconnectEvents_count (attempt : Nat) (outcomes : List Bool) :
    (onDisconnectEvents false attempt outcomes).count ("disconnect") =
      (if attempt = 0 then 1 else 0) := by
  induction outcomes generalizing attempt with
  | nil =>
      by_cases ha : attempt = 0 <;> simp [onDisconnectEvents, ha]
  | cons ok rest ih =>
      have h1 : (onDisconnectEvents false 1 rest).count ("disconnect") = 0 := by
        simpa using ih 1
      by_cases ha : attempt = 0 <;>
        cases ok <;>
          simp [onDisconnectEvents, ha, List.count_append, h1, ih (attempt + 1)]

/-- Claim C3: half true, half false on the code (code bug).  After a break
with `forceClosed` unset the handler emits disconnect exactly once, no matter
how many reconnection attempts fail first; but the reconnect event is *never*
emitted — not even when a connect attempt succeeds — because the catch-up
block is commented out in the source, contradicting the claim and the
class's own event documentation of reconnect.  When `forceClosed` is set
nothing is emitted. -/
theorem c3_disconnect_once_no_reconnect :
    (∀ outcomes : List Bool,
        (onDisconnectEvents false 0 outcomes).count ("disconnect") = 1 ∧
        ("reconnect") ∉ onDisconnectEvents false 0 outcomes) ∧
    (∀ (attempt : Nat) (outcomes : List Bool), onDisconnectEvents true attempt outcomes = []) := by
  constructor
  · intro outcomes
    constructor
    · simpa using onDisconnectEvents_count 0 outcomes
    · intro hmem
      have := onDisconnectEvents_all_disconnect false 0 outcomes ("reconnect") hmem
      simp at this
  · intro attempt outcomes
    cases outcomes <;> simp [onDisconnectEvents]

/-- The author slot of a message as seen by `Person#isMentioned`: either a
resolved Person reference or, when `Room#saveMessage` found no Person with
the message's userId, the raw numeric user id (whose `.id` property is
`undefined`). -/
inductive MsgAuthor where
  | person (id : Int) (handle : String)
  | numeric (userId : Int)

/-- The parts of a Message that `Person#isMentioned` reads. -/
structure MentionMessage where
  author : MsgAuthor
  content : String

/-- JS `message.author.id === this.id`: a Person author compares ids; a
numeric author has no `id` property, and `undefined` is never strictly equal
to a number. -/
def authorIdMatches (a : MsgAuthor) (selfId : Int) : Bool :=
  match a with
  | .person i _ => i == selfId
  | .numeric _ => false

/-- Embedding of `Person#isMentioned(message)` (src/unnamed/part_023, lines
163-176): authored-by-self returns false; otherwise the content is tested
with the cached regex `new RegExp("@" + this.handle, "g")` — a plain
substring pattern with *no word-boundary anchors* — and the truthy match
array is the result. -/
def isMentioned (selfId : Int) (selfHandle : String) (m : MentionMessage) : Bool :=
  if authorIdMatches m.author selfId then false
  else regexTestLiteral ("@" ++ selfHandle) m.content

/-- Word characters in the regex sense. -/
def isWordChar (c : Char) : Bool := c.isAlphanum || c == '_'

/-- True when the text right after a match of the pattern is empty or starts
with a non-word character. -/
def noWordCharAfter (pat s : List Char) : Bool :=
  match s.drop pat.length with
  | [] => true
  | d :: _ => !isWordChar d

/-- Modelled from the spec: the pattern occurs somewhere in the text *as a
word*, i.e. not immediately followed by a further word character. -/
def mentionAsWord (pat : List Char) : List Char → Bool
  | [] => listStartsWith pat [] && noWordCharAfter pat []
  | c :: rest =>
      (listStartsWith pat (c :: rest) && noWordCharAfter pat (c :: rest)) ||
        mentionAsWord pat rest

/-- Spec-side proposition that the message is authored by the person. -/
def authorIsSelf (a : MsgAuthor) (selfId : Int) : Prop :=
  match a with
  | .person i _ => i = selfId
  | .numeric _ => False

/-- A successful `listStartsWith` is exactly a prefix decomposition. -/
theorem listStartsWith_iff (pat s : List Char) :
    listStartsWith pat s = true ↔ ∃ t, s = pat ++ t := by
  induction pat generalizing s with
  | nil => simp [listStartsWith]
  | cons p ps ih =>
      cases s with
      | nil => simp [listStartsWith]
      | cons c cs =>
          simp only [listStartsWith, Bool.and_eq_true, beq_iff_eq, ih cs,
                     List.cons_append, List.cons.injEq]
          constructor
          · rintro ⟨hpc, t, ht⟩
            exact ⟨t, hpc.symm, ht⟩
          · rintro ⟨t, hcp, ht⟩
            exact ⟨hcp.symm, t, ht⟩

/-- A successful `listContainsSeq` is exactly an infix decomposition. -/
theorem listContainsSeq_iff (pat s : List Char) :
    listContainsSeq pat s = true ↔ ∃ pre post, s = pre ++ pat ++ post := by
  induction s with
  | nil =>
      simp only [listContainsSeq, listStartsWith_iff]
      constructor
      · rintro ⟨t, ht⟩
        exact ⟨[], t, by simpa using ht⟩
      · rintro ⟨pre, post, hps⟩
        refine ⟨post, ?_⟩
        have hpre : pre = [] := by
          cases pre with
          | nil => rfl
          | cons a b => simp at hps
        subst hpre
        simpa using hps
  | cons c cs ih =>
      simp only [listContainsSeq, Bool.or_eq_true, listStartsWith_iff, ih]
      constructor
      · rintro (⟨t, ht⟩ | ⟨pre, post, hps⟩)
        · exact ⟨[], t, by simpa using ht⟩
        · exact ⟨c :: pre, post, by simp [hps]⟩
      · rintro ⟨pre, post, hps⟩
        cases pre with
        | nil => exact Or.inl ⟨post, by simpa using hps⟩
        | cons a b =>
            simp only [List.cons_append, List.cons.injEq] at hps
            exact Or.inr ⟨b, post, hps.2⟩

/-- Claim C5 (counterexample): with handle adrian and content in which
adrian occurs only as a prefix of the longer word adrianc, the claim says
`isMentioned` is false; the code returns true, because the mention regex has
no word-boundary anchor and matches the bare substring.  The second conjunct
certifies that this content has no whole-word occurrence of the handle. -/
theorem c5_isMentioned_counterexample :
    isMentioned 1 ("adrian")
      { author := .person 2 ("sam"), content := "@adrianc is here" } = true ∧
    mentionAsWord ("@adrian".data) ("@adrianc is here".data) = false := by
  refine ⟨by rfl, by decide⟩

/-- Claim C5 (amended): `isMentioned` is true iff the message's author is not
the person (by id; an unresolved numeric author never compares equal) and the
content contains the *substring* formed by an at-sign and the handle — even
when that substring sits inside a longer word.  Messages authored by the
person always give false. -/
theorem c5_isMentioned_amended (selfId : Int) (selfHandle : String) (m : MentionMessage) :
    isMentioned selfId selfHandle m = true ↔
      ¬ authorIsSelf m.author selfId ∧
      ∃ pre post, m.content.data = pre ++ ("@" ++ selfHandle).data ++ post := by
  cases m with
  | mk author content =>
      cases author with
      | person i h =>
          by_cases hi : i = selfId
          · simp [isMentioned, authorIdMatches, authorIsSelf, hi]
          · simp [isMentioned, authorIdMatches, authorIsSelf, hi, regexTestLiteral,
                  listContainsSeq_iff]
      | numeric u =>
          simp [isMentioned, authorIdMatches, authorIsSelf, regexTestLiteral,
                listContainsSeq_iff]

/-- Room retention bound MAX_MESSAGE_RETENTION = 50 (src/src/Room.js, line 11). -/
def MAX_MESSAGE_RETENTION : Nat := 50

/-- A raw message payload as handed to `Room#saveMessage`. -/
structure RawMessage where
  id : Int
  userId : Int
  body : String
deriving Repr, DecidableEq

/-- A Message object held in `room.messages`: the raw fields plus the author
resolution performed by `saveMessage` (a Person token when
`findPersonById(userId)` matched, otherwise the bare userId is kept). -/
structure StoredMessage where
  id : Int
  userId : Int
  body : String
  authorTok : Option Nat
deriving Repr, DecidableEq

/-- The message-related state of a Room: its people (token and person id, as
visible to `findPersonById`) and its message store. -/
structure MsgRoom where
  people : List (Nat × Int)
  messages : List StoredMessage
deriving Repr, DecidableEq

/-- Room#findPersonById over the room's people. -/
def roomFindPersonById (people : List (Nat × Int)) (i : Int) : Option Nat :=
  (people.find? (fun p => p.2 == i)).map Prod.fst

/-- Embedding of `Room#addMessage` (src/src/Room.js, lines 227-236): when the
store is at capacity, `shift()` drops the oldest message, then the new one is
pushed. -/
def addMessage (msgs : List StoredMessage) (m : StoredMessage) : List StoredMessage :=
  (if msgs.length ≥ MAX_MESSAGE_RETENTION then msgs.drop 1 else msgs) ++ [m]

/-- The Message object `saveMessage` builds from a raw payload: the spread of
the raw fields plus the author resolution. -/
def toStored (people : List (Nat × Int)) (raw : RawMessage) : StoredMessage :=
  { id := raw.id, userId := raw.userId, body := raw.body,
    authorTok := roomFindPersonById people raw.userId }

/-- Room#findMessageById, as the index of the first message with the id. -/
def findMessageIdx (msgs : List StoredMessage) (i : Int) : Option Nat :=
  match msgs with
  | [] => none
  | m :: rest => if m.id == i then some 0 else (findMessageIdx rest i).map Nat.succ

/-- Embedding of `Room#saveMessage` (src/src/Room.js, lines 258-272): an
existing message with the same id is updated in place (every field assigned
from the details), otherwise the new Message is appended via `addMessage`. -/
def saveMessage (room : MsgRoom) (raw : RawMessage) : MsgRoom :=
  let details := toStored room.people raw
  match findMessageIdx room.messages raw.id with
  | some idx => { room with messages := room.messages.set idx details }
  | none => { room with messages := addMessage room.messages details }

/-- Ingesting a sequence of raw messages through `saveMessage`. -/
def saveMessages (room : MsgRoom) (raws : List RawMessage) : MsgRoom :=
  raws.foldl saveMessage room

/-- If no stored message carries the id, the lookup fails. -/
theorem findMessageIdx_eq_none (msgs : List StoredMessage) (i : Int)
    (h : ∀ m ∈ msgs, m.id ≠ i) : findMessageIdx msgs i = none := by
  induction msgs with
  | nil => rfl
  | cons m rest ih =>
      have hm : (m.id == i) = false := by simpa using h m (by simp)
      simp [findMessageIdx, hm, ih (fun x hx => h x (by simp [hx]))]

/-- `saveMessage` never grows the store beyond the retention bound. -/
theorem saveMessage_length_le (room : MsgRoom) (raw : RawMessage)
    (h : room.messages.length ≤ MAX_MESSAGE_RETENTION) :
    (saveMessage room raw).messages.length ≤ MAX_MESSAGE_RETENTION := by
  unfold saveMessage
  cases hf : findMessageIdx room.messages raw.id with
  | some idx => simpa using h
  | none =>
      simp only [addMessage]
      by_cases hlen : room.messages.length ≥ MAX_MESSAGE_RETENTION
      · have h50 : room.messages.length = MAX_MESSAGE_RETENTION := le_antisymm h hlen
        simp [hlen, h50, MAX_MESSAGE_RETENTION]
      · simp only [hlen, if_false, List.length_append, List.length_cons, List.length_nil]
        omega

/-- Bound preservation over any ingestion sequence. -/
theorem saveMessages_length_le (raws : List RawMessage) (room : MsgRoom)
    (h : room.messages.length ≤ MAX_MESSAGE_RETENTION) :
    (saveMessages room raws).messages.length ≤ MAX_MESSAGE_RETENTION := by
  induction raws generalizing room with
  | nil => simpa [saveMessages] using h
  | cons raw rest ih =>
      have := saveMessage_length_le room raw h
      simpa [saveMessages] using ih (saveMessage room raw) this

/-- Folding `addMessage` keeps exactly the trailing window of the input. -/
theorem foldl_addMessage_drop (xs acc : List StoredMessage)
    (h : acc.length ≤ MAX_MESSAGE_RETENTION) :
    xs.foldl addMessage acc = (acc ++ xs).drop ((acc ++ xs).length - MAX_MESSAGE_RETENTION) := by
  induction xs generalizing acc with
  | nil =>
      simp only [List.foldl_nil, List.append_nil]
      rw [Nat.sub_eq_zero_of_le h, List.drop_zero]
  | cons x rest ih =>
      simp only [List.foldl_cons]
      by_cases hlen : acc.length ≥ MAX_MESSAGE_RETENTION
      · have h50 : acc.length = MAX_MESSAGE_RETENTION := le_antisymm h hlen
        have hstep : addMessage acc x = acc.drop 1 ++ [x] := by
          simp [addMessage, hlen]
        rw [hstep]
        have hlen2 : (acc.drop 1 ++ [x]).length ≤ MAX_MESSAGE_RETENTION := by
          simp only [List.length_append, List.length_drop, List.length_cons,
                     List.length_nil, h50]
          simp [MAX_MESSAGE_RETENTION]
        rw [ih _ hlen2]
        have hsplit : acc.drop 1 ++ [x] ++ rest = (acc ++ x :: rest).drop 1 := by
          cases acc with
          | nil => simp [MAX_MESSAGE_RETENTION] at h50
          | cons a as => simp
        rw [hsplit, List.drop_drop]
        congr 1
        have hlena : (acc ++ x :: rest).length = MAX_MESSAGE_RETENTION + 1 + rest.length := by
          simp [h50]; omega
        cases acc with
        | nil => simp [MAX_MESSAGE_RETENTION] at h50
        | cons a as =>
            simp only [List.length_cons, List.length_drop, List.length_append] at *
            omega
      · have hstep : addMessage acc x = acc ++ [x] := by
          simp [addMessage, hlen]
        rw [hstep]
        have hlen2 : (acc ++ [x]).length ≤ MAX_MESSAGE_RETENTION := by
          simp only [List.length_append, List.length_cons, List.length_nil]
          omega
        rw [ih _ hlen2]
        simp

/-- Membership in the store after `addMessage`. -/
theorem mem_addMessage (msgs : List StoredMessage) (d m : StoredMessage)
    (h : m ∈ addMessage msgs d) : m ∈ msgs ∨ m = d := by
  unfold addMessage at h
  rcases List.mem_append.mp h with h1 | h1
  · by_cases hlen : msgs.length ≥ MAX_MESSAGE_RETENTION
    · rw [if_pos hlen] at h1
      exact Or.inl (List.mem_of_mem_drop h1)
    · rw [if_neg hlen] at h1
      exact Or.inl h1
  · simp at h1
    exact Or.inr h1

/-- When every incoming id is fresh (pairwise distinct and absent from the
store), `saveMessage` always takes the append path, so the whole ingestion is
a fold of `addMessage` over the stored forms of the raw messages. -/
theorem saveMessages_fresh (raws : List RawMessage) (room : MsgRoom)
    (hnd : (raws.map RawMessage.id).Nodup)
    (hfresh : ∀ r ∈ raws, ∀ m ∈ room.messages, m.id ≠ r.id) :
    saveMessages room raws =
      { room with messages := (raws.map (toStored room.people)).foldl addMessage room.messages } := by
  induction raws generalizing room with
  | nil => simp [saveMessages]
  | cons r rest ih =>
      have hnone : findMessageIdx room.messages r.id = none :=
        findMessageIdx_eq_none room.messages r.id
          (fun m hm => hfresh r (by simp) m hm)
      have hstep : saveMessage room r =
          { room with messages := addMessage room.messages (toStored room.people r) } := by
        unfold saveMessage
        rw [hnone]
      have h0 : (∀ x ∈ rest, ¬x.id = r.id) ∧ (List.map RawMessage.id rest).Nodup := by
        simpa using hnd
      have hfresh2 : ∀ r2 ∈ rest,
          ∀ m ∈ (saveMessage room r).messages, m.id ≠ r2.id := by
        intro r2 hr2 m hm
        rw [hstep] at hm
        rcases mem_addMessage room.messages (toStored room.people r) m hm with h1 | h1
        · exact hfresh r2 (by simp [hr2]) m h1
        · subst h1
          intro hcontra
          exact h0.1 r2 hr2 hcontra.symm
      have hrec := ih (saveMessage room r) h0.2 hfresh2
      rw [hstep] at hrec
      simp only [saveMessages, List.foldl_cons] at hrec ⊢
      rw [hstep, hrec]
      simp [List.foldl_cons]

/-- Claim C6: the message store never exceeds MAX_MESSAGE_RETENTION = 50, and
ingesting any sequence of raw messages with pairwise-distinct ids into an
empty room leaves exactly the trailing 50 (in arrival order, oldest evicted)
of their stored forms. -/
theorem c6_message_fifo :
    (∀ (room : MsgRoom) (raws : List RawMessage),
       room.messages.length ≤ MAX_MESSAGE_RETENTION →
       (saveMessages room raws).messages.length ≤ MAX_MESSAGE_RETENTION) ∧
    (∀ (room : MsgRoom) (raws : List RawMessage),
       room.messages = [] → (raws.map RawMessage.id).Nodup →
       (saveMessages room raws).messages =
         (raws.map (toStored room.people)).drop (raws.length - MAX_MESSAGE_RETENTION)) := by
  constructor
  · intro room raws h
    exact saveMessages_length_le raws room h
  · intro room raws hempty hnd
    have hfresh : ∀ r ∈ raws, ∀ m ∈ room.messages, m.id ≠ r.id := by
      intro r _ m hm
      rw [hempty] at hm
      simp at hm
    rw [saveMessages_fresh raws room hnd hfresh]
    simp only [hempty]
    have hf := foldl_addMessage_drop (raws.map (toStored room.people)) []
      (by simp)
    simpa using hf

/-- Witness for `c6_message_fifo` at a concrete two-message ingestion. -/
theorem c6_message_fifo_witness :
    (saveMessages { people := [(5, 9)], messages := [] }
        [({ id := 1, userId := 9, body := "a" } : RawMessage),
         { id := 2, userId := 3, body := "b" }]).messages =
      ([({ id := 1, userId := 9, body := "a" } : RawMessage),
        { id := 2, userId := 3, body := "b" }].map (toStored [(5, 9)])).drop
        ([({ id := 1, userId := 9, body := "a" } : RawMessage),
          { id := 2, userId := 3, body := "b" }].length - MAX_MESSAGE_RETENTION) :=
  c6_message_fifo.2 { people := [(5, 9)], messages := [] }
    [({ id := 1, userId := 9, body := "a" } : RawMessage),
     { id := 2, userId := 3, body := "b" }] (by rfl) (by decide)

/-- A Room object as mutated by `Room#update`: its own data fields hold JS
values; `people` and `messages` hold whatever the object currently stores
(references are opaque values here); `rid` is the object's identity. -/
structure RoomObj where
  rid : Nat
  id : Val := .vUndef
  rtype : Val := .vUndef
  title : Val := .vUndef
  status : Val := .vUndef
  unreadCount : Val := .vUndef
  importantUnreadCount : Val := .vUndef
  creatorId : Val := .vUndef
  lastActivityAt : Val := .vUndef
  lastViewedAt : Val := .vUndef
  updatedAt : Val := .vUndef
  createdAt : Val := .vUndef
  people : Val := .vArr []
  messages : Val := .vArr []

/-- One `Object.assign` step on a Room: the named own property is set.  The
field names are pairwise-distinct string literals, so setting the single
matching property is written field-wise (each field keeps its value unless the
key names it).  A key that names none of the Room's declared fields would
create an expando property, which no reader of the model consults. -/
def roomAssign (r : RoomObj) (key : String) (v : Val) : RoomObj :=
  { rid := r.rid
    id := if key == "id" then v else r.id
    rtype := if key == "type" then v else r.rtype
    title := if key == "title" then v else r.title
    status := if key == "status" then v else r.status
    unreadCount := if key == "unreadCount" then v else r.unreadCount
    importantUnreadCount := if key == "importantUnreadCount" then v else r.importantUnreadCount
    creatorId := if key == "creatorId" then v else r.creatorId
    lastActivityAt := if key == "lastActivityAt" then v else r.lastActivityAt
    lastViewedAt := if key == "lastViewedAt" then v else r.lastViewedAt
    updatedAt := if key == "updatedAt" then v else r.updatedAt
    createdAt := if key == "createdAt" then v else r.createdAt
    people := if key == "people" then v else r.people
    messages := if key == "messages" then v else r.messages }

/-- Applying one key/value pair of an assignment source. -/
def assignStep (acc : RoomObj) (kv : String × Val) : RoomObj :=
  roomAssign acc kv.1 kv.2

/-- The four timestamp keys converted by `Room#update`. -/
def TIMESTAMP_KEYS : List String :=
  ["lastActivityAt", "lastViewedAt", "updatedAt", "createdAt"]

/-- A moment.js wrapper around the raw timestamp value. -/
def momentVal (v : Val) : Val :=
  Val.vObj [("_isAMomentObject", Val.vBool true), ("_i", v)]

/-- One step of the `reduce` that collects converted timestamps. -/
def tsStep (details : List (String × Val)) (up : List (String × Val)) (ts : String) :
    List (String × Val) :=
  match lookupField details ts with
  | some v => if jsTruthy v then up ++ [(ts, momentVal v)] else up
  | none => up

/-- The converted-timestamp pairs built by `Room#update`. -/
def tsPairs (details : List (String × Val)) : List (String × Val) :=
  TIMESTAMP_KEYS.foldl (tsStep details) []

/-- Embedding of `Room#update(details)` (src/src/Room.js, lines 106-120):
convert the truthy timestamp fields with `moment`, then
`Object.assign(this, omit(details, "people"), timestamps)` — only the
`people` key is omitted — and return `this` (the same object, hence the
unchanged `rid`). -/
def roomUpdate (r : RoomObj) (details : List (String × Val)) : RoomObj :=
  (tsPairs details).foldl assignStep
    ((details.filter (fun kv => kv.1 != "people")).foldl assignStep r)

/-- `roomAssign` with any key other than the people key keeps `people`. -/
theorem roomAssign_people (r : RoomObj) (key : String) (v : Val)
    (h : key ≠ "people") : (roomAssign r key v).people = r.people := by
  simp [roomAssign, h]

/-- `roomAssign` with any key other than the messages key keeps `messages`. -/
theorem roomAssign_messages (r : RoomObj) (key : String) (v : Val)
    (h : key ≠ "messages") : (roomAssign r key v).messages = r.messages := by
  simp [roomAssign, h]

/-- `roomAssign` never changes the object identity. -/
theorem roomAssign_rid (r : RoomObj) (key : String) (v : Val) :
    (roomAssign r key v).rid = r.rid := rfl

/-- Folding assignment steps whose keys avoid the people key keeps `people`. -/
theorem assignFold_people (l : List (String × Val)) (r : RoomObj)
    (h : ∀ kv ∈ l, kv.1 ≠ "people") :
    (l.foldl assignStep r).people = r.people := by
  induction l generalizing r with
  | nil => rfl
  | cons kv rest ih =>
      rw [List.foldl_cons, ih _ (fun x hx => h x (by simp [hx]))]
      exact roomAssign_people r kv.1 kv.2 (h kv (by simp))

/-- Folding assignment steps whose keys avoid the messages key keeps
`messages`. -/
theorem assignFold_messages (l : List (String × Val)) (r : RoomObj)
    (h : ∀ kv ∈ l, kv.1 ≠ "messages") :
    (l.foldl assignStep r).messages = r.messages := by
  induction l generalizing r with
  | nil => rfl
  | cons kv rest ih =>
      rw [List.foldl_cons, ih _ (fun x hx => h x (by simp [hx]))]
      exact roomAssign_messages r kv.1 kv.2 (h kv (by simp))

/-- Folding assignment steps keeps the object identity. -/
theorem assignFold_rid (l : List (String × Val)) (r : RoomObj) :
    (l.foldl assignStep r).rid = r.rid := by
  induction l generalizing r with
  | nil => rfl
  | cons kv rest ih =>
      rw [List.foldl_cons, ih]
      rfl

/-- A pair produced by one timestamp step is an old pair or carries the
current key. -/
theorem tsStep_mem (details acc : List (String × Val)) (k : String)
    (kv : String × Val) (h : kv ∈ tsStep details acc k) : kv ∈ acc ∨ kv.1 = k := by
  simp only [tsStep] at h
  cases hl : lookupField details k with
  | none => rw [hl] at h; exact Or.inl h
  | some v =>
      rw [hl] at h
      simp only [] at h
      by_cases ht : jsTruthy v = true
      · rw [if_pos ht] at h
        rcases List.mem_append.mp h with h1 | h1
        · exact Or.inl h1
        · simp at h1
          exact Or.inr (by rw [h1])
      · rw [if_neg ht] at h
        exact Or.inl h

/-- Every pair collected by the timestamp reduce carries a timestamp key. -/
theorem tsPairs_keys (details : List (String × Val)) :
    ∀ kv ∈ tsPairs details, kv.1 ∈ TIMESTAMP_KEYS := by
  have hgen : ∀ (keys : List String) (acc : List (String × Val)),
      (∀ kv ∈ acc, kv.1 ∈ TIMESTAMP_KEYS) → (∀ k ∈ keys, k ∈ TIMESTAMP_KEYS) →
      ∀ kv ∈ keys.foldl (tsStep details) acc, kv.1 ∈ TIMESTAMP_KEYS := by
    intro keys
    induction keys with
    | nil => intro acc hacc _ kv hkv; exact hacc kv hkv
    | cons k ks ih =>
        intro acc hacc hkeys kv hkv
        rw [List.foldl_cons] at hkv
        refine ih (tsStep details acc k) ?_ (fun x hx => hkeys x (by simp [hx])) kv hkv
        intro kv2 hkv2
        rcases tsStep_mem details acc k kv2 hkv2 with h1 | h1
        · exact hacc kv2 h1
        · rw [h1]
          exact hkeys k (by simp)
  exact hgen TIMESTAMP_KEYS [] (by simp) (fun k hk => hk)

/-- A key absent from an association list heads none of its pairs. -/
theorem lookupField_none_keys (l : List (String × Val)) (k : String)
    (h : lookupField l k = none) : ∀ kv ∈ l, kv.1 ≠ k := by
  induction l with
  | nil => intro kv hkv; simp at hkv
  | cons kv0 rest ih =>
      intro kv hkv
      unfold lookupField at h
      by_cases he : kv0.1 == k
      · rw [show kv0 = (kv0.1, kv0.2) from rfl, if_pos he] at h
        simp at h
      · rw [show kv0 = (kv0.1, kv0.2) from rfl, if_neg he] at h
        rcases List.mem_cons.mp hkv with h1 | h1
        · rw [h1]; simpa using he
        · exact ih h kv h1

/-- Claim C10 (counterexample): the claim says `Room#update` never touches the
messages list for any details object.  `omit(details, "people")` only
discards the `people` key, so a details object carrying a `messages` key
overwrites the room's messages wholesale. -/
theorem c10_update_counterexample :
    ({ rid := 7, messages := Val.vArr [Val.vStr ("m1")] } : RoomObj).messages =
        Val.vArr [Val.vStr ("m1")] ∧
    (roomUpdate { rid := 7, messages := Val.vArr [Val.vStr ("m1")] }
        [("messages", Val.vArr [])]).messages = Val.vArr [] ∧
    Val.vArr [] ≠ Val.vArr [Val.vStr ("m1")] := by
  refine ⟨rfl, rfl, ?_⟩
  intro h
  injection h with h2
  exact List.noConfusion h2

/-- Claim C10 (amended): `Room#update` always preserves the people list (the
`people` key is omitted) and the room object's identity (it mutates `this`
and returns it), and it preserves the messages list provided the details
object carries no `messages` key — which the counterexample shows is the one
way update can touch messages. -/
theorem c10_update_amended (r : RoomObj) (details : List (String × Val)) :
    (roomUpdate r details).people = r.people ∧
    (roomUpdate r details).rid = r.rid ∧
    (lookupField details ("messages") = none →
      (roomUpdate r details).messages = r.messages) := by
  have hts_people : ∀ kv ∈ tsPairs details, kv.1 ≠ "people" := by
    intro kv hkv
    have := tsPairs_keys details kv hkv
    simp [TIMESTAMP_KEYS] at this
    rcases this with h | h | h | h <;> simp [h]
  have hts_messages : ∀ kv ∈ tsPairs details, kv.1 ≠ "messages" := by
    intro kv hkv
    have := tsPairs_keys details kv hkv
    simp [TIMESTAMP_KEYS] at this
    rcases this with h | h | h | h <;> simp [h]
  have hfilter_people : ∀ kv ∈ details.filter (fun kv => kv.1 != "people"),
      kv.1 ≠ "people" := by
    intro kv hkv
    have := (List.mem_filter.mp hkv).2
    simpa using this
  refine ⟨?_, ?_, ?_⟩
  · unfold roomUpdate
    rw [assignFold_people _ _ hts_people, assignFold_people _ _ hfilter_people]
  · unfold roomUpdate
    rw [assignFold_rid, assignFold_rid]
  · intro hnone
    have hfilter_messages : ∀ kv ∈ details.filter (fun kv => kv.1 != "people"),
        kv.1 ≠ "messages" := by
      intro kv hkv
      exact lookupField_none_keys details ("messages") hnone kv (List.mem_of_mem_filter hkv)
    unfold roomUpdate
    rw [assignFold_messages _ _ hts_messages, assignFold_messages _ _ hfilter_messages]

/-- Witness for `c10_update_amended` at a concrete messages-free details
object. -/
theorem c10_update_amended_witness :
    (roomUpdate { rid := 3 } [("title", Val.vStr ("hi"))]).messages =
      ({ rid := 3 } : RoomObj).messages :=
  (c10_update_amended { rid := 3 } [("title", Val.vStr ("hi"))]).2.2 (by rfl)

/-- The filter accepted by `APIClient#getPeople`. -/
structure PeopleFilter where
  since : Option String := none
  search : Option String := none

/-- The `query` local of `getPeople` is a JS *array*: `query.push(...)`
appends an indexed element, while `query.filter = ...` sets a *named
property* on the array object — not an element. -/
structure QueryArray where
  elems : List Val := []
  filterProp : Option Val := none

/-- Embedding of the query construction of `APIClient#getPeople`
(src/unnamed/part_016, lines 1221-1239): `if(filter.since)` pushes an
element; `if(filter.search)` assigns the named `filter` property. -/
def buildPeopleQuery (filter : PeopleFilter) : QueryArray :=
  let q0 : QueryArray := {}
  let q1 :=
    match filter.since with
    | some s =>
        if s != "" then
          { q0 with elems := q0.elems ++ [Val.vObj [("updatedAfter", Val.vStr s)]] }
        else q0
    | none => q0
  match filter.search with
  | some s =>
      if s != "" then
        { q1 with filterProp := some (Val.vObj [("searchTerm", Val.vStr s)]) }
      else q1
  | none => q1

/-- Shallow field merge: the fields of the second object override the first
in place, new keys are appended.  (Lodash merge is deep, but no reachable
call of this model passes two sources, let alone nested ones.) -/
def mergeFields (a b : List (String × Val)) : List (String × Val) :=
  (a.map (fun kv =>
     match lookupField b kv.1 with
     | some v => (kv.1, v)
     | none => kv)) ++
  b.filter (fun kv => (lookupField a kv.1).isNone)

/-- Merge of two merge sources. -/
def mergeVals (a b : Val) : Val :=
  match a, b with
  | Val.vObj fa, Val.vObj fb => Val.vObj (mergeFields fa fb)
  | _, _ => b

/-- `merge(...query)`: the spread operator passes only the array's *indexed
elements* as arguments; the named `filter` property assigned by the search
branch is silently dropped.  `merge()` of no arguments yields `undefined`. -/
def lodashMergeSpread (q : QueryArray) : Val :=
  match q.elems with
  | [] => Val.vUndef
  | x :: rest => rest.foldl mergeVals x

/-- The `page` object `requestList` builds from the defined members of
`\x7boffset, limit\x7d` (`omitBy(..., isUndefined)`). -/
def pageObj (offset limit : Option Int) : Val :=
  Val.vObj
    ((match offset with | some o => [("offset", Val.vInt o)] | none => []) ++
     (match limit with | some l => [("limit", Val.vInt l)] | none => []))

/-- Spreading a value into an object literal: an object contributes its
fields; `undefined` (and any primitive without own enumerable properties)
contributes nothing. -/
def spreadIntoObj (v : Val) : List (String × Val) :=
  match v with
  | Val.vObj fs => fs
  | _ => []

/-- The final query object of a `getPeople` request:
`\x7b ...options.query, page: omitBy(\x7boffset, limit\x7d, isUndefined) \x7d` from
`APIClient.requestList` (src/unnamed/part_016, lines 1163-1171) applied to the
merged `getPeople` query. -/
def getPeopleQuery (filter : PeopleFilter) (offset limit : Option Int) : Val :=
  Val.vObj (spreadIntoObj (lodashMergeSpread (buildPeopleQuery filter)) ++
            [("page", pageObj offset limit)])

/-- A person entry of the people.json response, as read by
`getPersonByHandle`. -/
structure RawPersonEntry where
  id : Int
  handle : String
deriving Repr, DecidableEq

/-- Embedding of `APIClient#getPersonByHandle` (src/unnamed/part_016, lines
1257-1271) after the response arrives: an empty handle throws up front;
otherwise the first entry whose handle matches exactly is returned and a
missing match throws the not-found error. -/
def selectPersonByHandle (handle : String) (people : List RawPersonEntry) :
    Except String RawPersonEntry :=
  if handle == "" then .error ("Please supply a person handle.")
  else
    match people.find? (fun p => p.handle == handle) with
    | some p => .ok p
    | none => .error ("Unable to find person " ++ handle ++ " by handle.")

/-- Claim C9: partly false on the code (code bug).  First part: for every
handle, the query object of the people request contains only the `page`
object — no `filter[searchTerm]` — because `query.filter = ...` stores the
search term as a named property of the `query` *array*, which the spread in
`merge(...query)` does not pass on.  Second part: the response
post-processing does behave as claimed — it yields exactly the first entry
whose handle matches the requested one, and otherwise fails with the
not-found error (or the empty-handle error up front). -/
theorem c9_getPeople_searchTerm_dropped :
    (∀ (h : String) (offset limit : Option Int),
       getPeopleQuery { since := none, search := some h } offset limit =
         Val.vObj [("page", pageObj offset limit)]) ∧
    (∀ (handle : String) (people : List RawPersonEntry),
       (handle = "" ∧
          selectPersonByHandle handle people = .error ("Please supply a person handle.")) ∨
       (∃ p, selectPersonByHandle handle people = .ok p ∧ p.handle = handle ∧ p ∈ people) ∨
       (selectPersonByHandle handle people =
            .error ("Unable to find person " ++ handle ++ " by handle.") ∧
        ∀ p ∈ people, p.handle ≠ handle)) := by
  constructor
  · intro h offset limit
    by_cases hs : h = ""
    · simp [getPeopleQuery, buildPeopleQuery, lodashMergeSpread, spreadIntoObj, hs]
    · simp [getPeopleQuery, buildPeopleQuery, lodashMergeSpread, spreadIntoObj, hs]
  · intro handle people
    by_cases he : handle = ""
    · exact Or.inl ⟨he, by simp [selectPersonByHandle, he]⟩
    · right
      cases hf : people.find? (fun p => p.handle == handle) with
      | some p =>
          left
          refine ⟨p, ?_, ?_, ?_⟩
          · simp [selectPersonByHandle, he, hf]
          · simpa using List.find?_some hf
          · exact List.mem_of_find?_eq_some hf
      | none =>
          right
          constructor
          · simp [selectPersonByHandle, he, hf]
          · intro p hp
            have := List.find?_eq_none.mp hf p hp
            simpa using this

/-- A person payload as it appears in API responses (including the nested
people arrays of room payloads). -/
structure PersonPayload where
  id : Int
  handle : String
  roomId : Option Int := none
deriving Repr, DecidableEq

/-- A room payload as returned by the rooms/conversations endpoints. -/
structure RoomPayload where
  id : Int
  title : Option String := none
  rtype : Option String := none
  people : Option (List PersonPayload) := none
deriving Repr, DecidableEq

/-- A cached Person object: its data fields and a reference (allocation
token) to its pair room, `person.room`. -/
structure PersonR where
  id : Int
  handle : String
  roomRef : Nat
deriving Repr, DecidableEq

/-- A cached Room object's data: `id` is absent for an uninitialized room;
`people` is the ordered list of Person tokens. -/
structure RoomR where
  id : Option Int := none
  title : Option String := none
  rtype : Option String := none
  people : List Nat := []
deriving Repr, DecidableEq

/-- The TeamworkChat entity cache.  JS object identity is modelled with
allocation tokens: `persons` and `roomStore` map a token to the object's
current data, `roomsList` is `this.rooms` (tokens in push order),
`globalRoomTok` is `this.room` (the root room whose people list is the
directory), `selfTok` is the current user and `nextTok` the allocator. -/
structure ChatState where
  selfTok : Nat
  globalRoomTok : Nat
  persons : List (Nat × PersonR)
  roomStore : List (Nat × RoomR)
  roomsList : List Nat
  nextTok : Nat
deriving Repr, DecidableEq

/-- Token-map lookup (first entry wins; token keys are kept unique). -/
def lookupTok {α : Type} : List (Nat × α) → Nat → Option α
  | [], _ => none
  | (k, v) :: rest, key => if k == key then some v else lookupTok rest key

/-- Token-map update in place. -/
def setTok {α : Type} : List (Nat × α) → Nat → α → List (Nat × α)
  | [], _, _ => []
  | (k, v) :: rest, key, nv =>
      if k == key then (k, nv) :: setTok rest key nv else (k, v) :: setTok rest key nv

/-- The Person object a token refers to. -/
def personOf (s : ChatState) (tok : Nat) : Option PersonR := lookupTok s.persons tok

/-- The Room object a token refers to. -/
def roomOf (s : ChatState) (tok : Nat) : Option RoomR := lookupTok s.roomStore tok

/-- `this.room.people`: the directory of all people loaded in memory. -/
def globalPeople (s : ChatState) : List Nat :=
  match roomOf s s.globalRoomTok with
  | some rd => rd.people
  | none => []

/-- `TeamworkChat#findPersonById`: scan the global room's people. -/
def findPersonById (s : ChatState) (i : Int) : Option Nat :=
  (globalPeople s).find? (fun tok =>
    match personOf s tok with
    | some p => p.id == i
    | none => false)

/-- Embedding of `Person#update` on a cached person (src/unnamed/part_023,
lines 135-155): assign `id` and `handle` from the payload; a `roomId` in the
payload sets the pair room's id via `this.room.update(\x7bid: roomId\x7d)`. -/
def personUpdate (s : ChatState) (tok : Nat) (raw : PersonPayload) : ChatState :=
  match personOf s tok with
  | none => s
  | some p =>
      let p2 : PersonR := { p with id := raw.id, handle := raw.handle }
      let s1 := { s with persons := setTok s.persons tok p2 }
      match raw.roomId with
      | some rid =>
          match roomOf s1 p.roomRef with
          | some rd =>
              { s1 with roomStore := setTok s1.roomStore p.roomRef { rd with id := some rid } }
          | none => s1
      | none => s1

/-- `TeamworkChat#addRoom`: push the room token onto `this.rooms` (the event
wiring is not modelled). -/
def addRoomOp (s : ChatState) (tok : Nat) : ChatState :=
  { s with roomsList := s.roomsList ++ [tok] }

/-- `TeamworkChat#addPerson`: push the person token onto the global room's
people. -/
def addPersonOp (s : ChatState) (tok : Nat) : ChatState :=
  match roomOf s s.globalRoomTok with
  | some rd =>
      { s with roomStore :=
          setTok s.roomStore s.globalRoomTok { rd with people := rd.people ++ [tok] } }
  | none => s

/-- Embedding of `TeamworkChat#savePerson` (src/unnamed/part_013, lines
717-727): an id hit updates the cached Person in place (identity is kept);
otherwise `new Person(api, raw)` allocates the Person together with its pair
room (people `[api.user, this]`, id from the payload's roomId if any), then
`addRoom(person.room)` and `addPerson(person)` register both. -/
def savePerson (s : ChatState) (raw : PersonPayload) : Nat × ChatState :=
  match findPersonById s raw.id with
  | some tok => (tok, personUpdate s tok raw)
  | none =>
      let tr := s.nextTok
      let tp := s.nextTok + 1
      let room : RoomR := { id := raw.roomId, people := [s.selfTok, tp] }
      let s1 := { s with
        roomStore := s.roomStore ++ [(tr, room)],
        persons := s.persons ++ [(tp, { id := raw.id, handle := raw.handle, roomRef := tr })],
        nextTok := s.nextTok + 2 }
      (tp, addPersonOp (addRoomOp s1 tr) tp)

/-- `rawRoom.people.map(person => this.savePerson(person))`, threading the
cache state. -/
def savePersonList (s : ChatState) (raws : List PersonPayload) : List Nat × ChatState :=
  match raws with
  | [] => ([], s)
  | r :: rest =>
      let first := savePerson s r
      let further := savePersonList first.2 rest
      (first.1 :: further.1, further.2)

/-- `Room#update` restricted to a room payload's own fields
(`omit(rawRoom, "people")`): the id key is always present on a payload, the
optional keys are assigned only when present. -/
def roomDataUpdate (rd : RoomR) (raw : RoomPayload) : RoomR :=
  { rd with
    id := some raw.id
    title := match raw.title with | some t => some t | none => rd.title
    rtype := match raw.rtype with | some t => some t | none => rd.rtype }

/-- `TeamworkChat#findRoomById`: scan `this.rooms` for the id. -/
def findRoomById (s : ChatState) (i : Int) : Option Nat :=
  s.roomsList.find? (fun tok =>
    match roomOf s tok with
    | some rd => rd.id == some i
    | none => false)

/-- Embedding of `TeamworkChat#saveRoom` (src/unnamed/part_013, lines
476-509).  An id hit updates the room in place and diffs its people (saved
participants minus current people are added, the converse are removed).
Otherwise the participants are saved first; when they are exactly the current
user and one other person (and not the current user twice) *no room is
created*: the payload's details are merged into that person's pair room,
which is returned.  In all other cases a fresh Room is allocated with the
details and participants and registered via `addRoom`.  (The two branches
marked unreachable are guarded out: the filter of a two-element list that
contains a non-self token is non-empty, and saved participants always have a
cache entry.) -/
def saveRoom (s : ChatState) (raw : RoomPayload) : Nat × ChatState :=
  match findRoomById s raw.id with
  | some tok =>
      let s1 :=
        match roomOf s tok with
        | some rd => { s with roomStore := setTok s.roomStore tok (roomDataUpdate rd raw) }
        | none => s
      match raw.people with
      | none => (tok, s1)
      | some rawPeople =>
          let saved := savePersonList s1 rawPeople
          match roomOf saved.2 tok with
          | none => (tok, saved.2)
          | some rd =>
              let added := saved.1.filter (fun t => !(rd.people.contains t))
              let removed := rd.people.filter (fun t => !(saved.1.contains t))
              let newPeople := (rd.people ++ added).filter (fun t => !(removed.contains t))
              (tok, { saved.2 with
                roomStore := setTok saved.2.roomStore tok { rd with people := newPeople } })
  | none =>
      match raw.people with
      | none =>
          let tr := s.nextTok
          let s1 := { s with
            roomStore := s.roomStore ++ [(tr, roomDataUpdate {} raw)],
            nextTok := s.nextTok + 1 }
          (tr, addRoomOp s1 tr)
      | some rawPeople =>
          let saved := savePersonList s rawPeople
          if saved.1.length == 2 && saved.1.contains s.selfTok &&
              !(saved.1.all (fun t => t == s.selfTok)) then
            match saved.1.filter (fun t => t != s.selfTok) with
            | [] => (0, saved.2)
            | d :: _ =>
                match personOf saved.2 d with
                | none => (d, saved.2)
                | some dp =>
                    match roomOf saved.2 dp.roomRef with
                    | some rd =>
                        (dp.roomRef, { saved.2 with
                          roomStore := setTok saved.2.roomStore dp.roomRef (roomDataUpdate rd raw) })
                    | none => (dp.roomRef, saved.2)
          else
            let tr := saved.2.nextTok
            let room : RoomR := { roomDataUpdate {} raw with people := saved.1 }
            let s2 := { saved.2 with
              roomStore := saved.2.roomStore ++ [(tr, room)],
              nextTok := saved.2.nextTok + 1 }
            (tr, addRoomOp s2 tr)

/-- The current user's handle. -/
def selfHandleOf (s : ChatState) : String :=
  match personOf s s.selfTok with
  | some p => p.handle
  | none => ""

/-- `getPersonBy("handle", h)` resolved against the in-memory directory. -/
def getPersonByHandleLocal (s : ChatState) (h : String) : Option Nat :=
  (globalPeople s).find? (fun tok =>
    match personOf s tok with
    | some p => p.handle == h
    | none => false)

/-- Embedding of the single-other-person path of
`TeamworkChat#getRoomForHandles` (src/unnamed/part_013, lines 348-372): one
handle (or two including the current user's) resolves the other person
locally and returns that person's pair room.  `none` stands for the paths
this claim does not exercise: the get-room-for-self error, a person that is
not in memory (an API round trip follows), and the multi-handle branch. -/
def getRoomForHandlesSingle (s : ChatState) (handles : List String) : Option Nat :=
  if handles.length == 1 || (handles.length == 2 && handles.contains (selfHandleOf s)) then
    if handles.length == 1 && handles.contains (selfHandleOf s) then none
    else
      match handles.filter (fun h => h != selfHandleOf s) with
      | [] => none
      | h :: _ =>
          match getPersonByHandleLocal s h with
          | some tok => (personOf s tok).map PersonR.roomRef
          | none => none
  else none

/-- Updating one token leaves every other token's entry unchanged. -/
theorem lookupTok_setTok_ne {α : Type} (l : List (Nat × α)) (k k2 : Nat) (v : α)
    (h : k2 ≠ k) : lookupTok (setTok l k v) k2 = lookupTok l k2 := by
  induction l with
  | nil => rfl
  | cons kv rest ih =>
      obtain ⟨k0, v0⟩ := kv
      by_cases he : k0 = k
      · subst he
        simp [setTok, lookupTok, Ne.symm h, ih]
      · by_cases he2 : k0 = k2
        · subst he2
          simp [setTok, lookupTok, he]
        · simp [setTok, lookupTok, he, he2, ih]

/-- Updating a token that has an entry makes the lookup return the new value. -/
theorem lookupTok_setTok_self {α : Type} (l : List (Nat × α)) (k : Nat) (v w : α)
    (h : lookupTok l k = some w) : lookupTok (setTok l k v) k = some v := by
  induction l with
  | nil => simp [lookupTok] at h
  | cons kv rest ih =>
      obtain ⟨k0, v0⟩ := kv
      by_cases he : k0 = k
      · subst he
        simp [setTok, lookupTok]
      · simp only [lookupTok] at h
        rw [if_neg (by simpa using he)] at h
        simp [setTok, lookupTok, he, ih h]

/-- Updating an absent token is a no-op. -/
theorem setTok_not_mem {α : Type} (l : List (Nat × α)) (k : Nat) (v : α)
    (h : k ∉ l.map Prod.fst) : setTok l k v = l := by
  induction l with
  | nil => rfl
  | cons kv rest ih =>
      obtain ⟨k0, v0⟩ := kv
      simp only [List.map_cons, List.mem_cons] at h
      push_neg at h
      simp [setTok, Ne.symm h.1, ih h.2]

/-- Writing back the value an entry already holds is a no-op when keys are
unique. -/
theorem setTok_self_eq {α : Type} (l : List (Nat × α)) (k : Nat) (v : α)
    (hnd : (l.map Prod.fst).Nodup) (h : lookupTok l k = some v) : setTok l k v = l := by
  induction l with
  | nil => rfl
  | cons kv rest ih =>
      obtain ⟨k0, v0⟩ := kv
      simp only [List.map_cons, List.nodup_cons] at hnd
      by_cases he : k0 = k
      · subst he
        simp only [lookupTok] at h
        rw [if_pos (by simp)] at h
        have h2 : v0 = v := by simpa using h
        subst h2
        simp [setTok, setTok_not_mem rest k0 v0 hnd.1]
      · simp only [lookupTok] at h
        rw [if_neg (by simpa using he)] at h
        simp [setTok, he, ih hnd.2 h]

/-- `find?` hits a designated element when the predicate holds there and
nowhere else. -/
theorem find?_mem_unique (l : List Nat) (p : Nat → Bool) (a : Nat)
    (hmem : a ∈ l) (hpa : p a = true) (huniq : ∀ b ∈ l, p b = true → b = a) :
    l.find? p = some a := by
  induction l with
  | nil => simp at hmem
  | cons x rest ih =>
      by_cases hx : p x = true
      · have : x = a := huniq x (by simp) hx
        subst this
        simp [List.find?, hx]
      · have hxne : x ≠ a := fun hcontra => hx (hcontra ▸ hpa)
        have hmem2 : a ∈ rest := by
          rcases List.mem_cons.mp hmem with h1 | h1
          · exact absurd h1.symm hxne
          · exact h1
        rw [List.find?_cons_of_neg _ (by simpa using hx)]
        exact ih hmem2 (fun b hb hpb => huniq b (by simp [hb]) hpb)

/-- `savePerson` on a payload that resolves to an already-cached person whose
data the payload repeats (and with no roomId hint) returns that person and
leaves the state unchanged. -/
theorem savePerson_hit (s : ChatState) (raw : PersonPayload) (tok : Nat) (p : PersonR)
    (hfind : findPersonById s raw.id = some tok)
    (hp : personOf s tok = some p)
    (hid : raw.id = p.id) (hh : raw.handle = p.handle) (hroom : raw.roomId = none)
    (hnd : (s.persons.map Prod.fst).Nodup) :
    savePerson s raw = (tok, s) := by
  have hval : ({ p with id := raw.id, handle := raw.handle } : PersonR) = p := by
    rw [hid, hh]
  simp only [savePerson, hfind, personUpdate, hp, hroom, hval]
  rw [setTok_self_eq s.persons tok p hnd hp]

/-- `findPersonById` depends only on the persons map and the global room's
people. -/
theorem findPersonById_congr (s1 s2 : ChatState) (i : Int)
    (hp : s1.persons = s2.persons) (hg : globalPeople s1 = globalPeople s2) :
    findPersonById s1 i = findPersonById s2 i := by
  simp [findPersonById, personOf, hp, hg]

/-- `getPersonByHandleLocal` depends only on the persons map and the global
room's people. -/
theorem getPersonByHandleLocal_congr (s1 s2 : ChatState) (h : String)
    (hp : s1.persons = s2.persons) (hg : globalPeople s1 = globalPeople s2) :
    getPersonByHandleLocal s1 h = getPersonByHandleLocal s2 h := by
  simp [getPersonByHandleLocal, personOf, hp, hg]

/-- First ingestion of a pair payload `\x7bself, P\x7d` whose room id is not yet
cached: `saveRoom` allocates nothing and merges the details into P's pair
room, returning that room's token. -/
theorem saveRoom_alias
    (s : ChatState) (raw : RoomPayload) (rs rp : PersonPayload)
    (pTok : Nat) (selfP pP : PersonR) (prD : RoomR)
    (hself : personOf s s.selfTok = some selfP)
    (hfind_self : findPersonById s rs.id = some s.selfTok)
    (hp : personOf s pTok = some pP)
    (hfind_p : findPersonById s rp.id = some pTok)
    (hpr : roomOf s pP.roomRef = some prD)
    (hnoroom : findRoomById s raw.id = none)
    (hrs_id : rs.id = selfP.id) (hrs_h : rs.handle = selfP.handle) (hrs_r : rs.roomId = none)
    (hrp_id : rp.id = pP.id) (hrp_h : rp.handle = pP.handle) (hrp_r : rp.roomId = none)
    (hptok : pTok ≠ s.selfTok)
    (hndP : (s.persons.map Prod.fst).Nodup)
    (hpeople : raw.people = some [rs, rp] ∨ raw.people = some [rp, rs]) :
    saveRoom s raw =
      (pP.roomRef,
       { s with roomStore := setTok s.roomStore pP.roomRef (roomDataUpdate prD raw) }) := by
  have hsp1 : savePerson s rs = (s.selfTok, s) :=
    savePerson_hit s rs s.selfTok selfP hfind_self hself hrs_id hrs_h hrs_r hndP
  have hsp2 : savePerson s rp = (pTok, s) :=
    savePerson_hit s rp pTok pP hfind_p hp hrp_id hrp_h hrp_r hndP
  rcases hpeople with hpe | hpe
  · have hlist : savePersonList s [rs, rp] = ([s.selfTok, pTok], s) := by
      simp [savePersonList, hsp1, hsp2]
    simp [saveRoom, hnoroom, hpe, hlist, hptok, hp, hpr]
  · have hlist : savePersonList s [rp, rs] = ([pTok, s.selfTok], s) := by
      simp [savePersonList, hsp1, hsp2]
    simp [saveRoom, hnoroom, hpe, hlist, hptok, hp, hpr]

/-- Re-ingesting a pair payload once its room id is cached: `saveRoom` takes
the update path on the same room object — nothing is allocated, the rooms
list, the allocator and the persons map are unchanged, and the same token is
returned. -/
theorem saveRoom_update_pair
    (t : ChatState) (raw : RoomPayload) (rs rp : PersonPayload)
    (pTok prTok : Nat) (selfP pP : PersonR) (rdCur : RoomR)
    (hself : personOf t t.selfTok = some selfP)
    (hfind_self : findPersonById t rs.id = some t.selfTok)
    (hp : personOf t pTok = some pP)
    (hfind_p : findPersonById t rp.id = some pTok)
    (hfound : findRoomById t raw.id = some prTok)
    (hroom : roomOf t prTok = some rdCur)
    (hpeopleCur : rdCur.people = [t.selfTok, pTok])
    (hrs_id : rs.id = selfP.id) (hrs_h : rs.handle = selfP.handle) (hrs_r : rs.roomId = none)
    (hrp_id : rp.id = pP.id) (hrp_h : rp.handle = pP.handle) (hrp_r : rp.roomId = none)
    (hptok : pTok ≠ t.selfTok)
    (hndP : (t.persons.map Prod.fst).Nodup)
    (hgr : t.globalRoomTok ≠ prTok)
    (hpeople : raw.people = some [rs, rp] ∨ raw.people = some [rp, rs]) :
    (saveRoom t raw).1 = prTok ∧
    (saveRoom t raw).2.roomsList = t.roomsList ∧
    (saveRoom t raw).2.nextTok = t.nextTok ∧
    (saveRoom t raw).2.persons = t.persons := by
  have hgp : globalPeople { t with roomStore := setTok t.roomStore prTok (roomDataUpdate rdCur raw) } =
      globalPeople t := by
    simp only [globalPeople, roomOf]
    rw [lookupTok_setTok_ne _ _ _ _ hgr]
  have hfs1 : findPersonById { t with roomStore := setTok t.roomStore prTok (roomDataUpdate rdCur raw) } rs.id =
      some t.selfTok := by
    rw [findPersonById_congr
      { t with roomStore := setTok t.roomStore prTok (roomDataUpdate rdCur raw) } t rs.id rfl hgp]
    exact hfind_self
  have hfp1 : findPersonById { t with roomStore := setTok t.roomStore prTok (roomDataUpdate rdCur raw) } rp.id =
      some pTok := by
    rw [findPersonById_congr
      { t with roomStore := setTok t.roomStore prTok (roomDataUpdate rdCur raw) } t rp.id rfl hgp]
    exact hfind_p
  have hsp1 : savePerson { t with roomStore := setTok t.roomStore prTok (roomDataUpdate rdCur raw) } rs =
      (t.selfTok, { t with roomStore := setTok t.roomStore prTok (roomDataUpdate rdCur raw) }) :=
    savePerson_hit _ rs t.selfTok selfP hfs1 hself hrs_id hrs_h hrs_r hndP
  have hsp2 : savePerson { t with roomStore := setTok t.roomStore prTok (roomDataUpdate rdCur raw) } rp =
      (pTok, { t with roomStore := setTok t.roomStore prTok (roomDataUpdate rdCur raw) }) :=
    savePerson_hit _ rp pTok pP hfp1 hp hrp_id hrp_h hrp_r hndP
  have hroom1 : roomOf { t with roomStore := setTok t.roomStore prTok (roomDataUpdate rdCur raw) } prTok =
      some (roomDataUpdate rdCur raw) :=
    lookupTok_setTok_self _ _ _ _ hroom
  have hpe2 : (roomDataUpdate rdCur raw).people = [t.selfTok, pTok] := by
    simp [roomDataUpdate, hpeopleCur]
  rcases hpeople with hpe | hpe
  · have hlist : savePersonList { t with roomStore := setTok t.roomStore prTok (roomDataUpdate rdCur raw) } [rs, rp] =
        ([t.selfTok, pTok], { t with roomStore := setTok t.roomStore prTok (roomDataUpdate rdCur raw) }) := by
      simp [savePersonList, hsp1, hsp2]
    refine ⟨?_, ?_, ?_, ?_⟩ <;>
      simp [saveRoom, hfound, hroom, hpe, hlist, hroom1, hpe2, hptok]
  · have hlist : savePersonList { t with roomStore := setTok t.roomStore prTok (roomDataUpdate rdCur raw) } [rp, rs] =
        ([pTok, t.selfTok], { t with roomStore := setTok t.roomStore prTok (roomDataUpdate rdCur raw) }) := by
      simp [savePersonList, hsp1, hsp2]
    refine ⟨?_, ?_, ?_, ?_⟩ <;>
      simp [saveRoom, hfound, hroom, hpe, hlist, hroom1, hpe2, hptok]

/-- Claim C1: pair-room aliasing.  In a well-formed cache (the hypotheses:
the current user and P are cached with unique person keys, the directory and
id/handle lookups resolve them, P's pair room holds exactly \x7bself, P\x7d and is
registered in `this.rooms`, it is distinct from the global room, and no room
with the payload's id is known yet), ingesting a pair payload whose
participants are exactly the current user and P creates no Room: `saveRoom`
returns P's pair-room token with the details merged in (same people, id now
the payload's), the rooms list and the allocator are untouched,
`getRoomForHandles([P.handle])` then resolves to that same pair room, and
re-ingesting the same payload again returns the same token without touching
the rooms list or the allocator. -/
theorem c1_pair_room_aliasing
    (s : ChatState) (raw : RoomPayload) (rs rp : PersonPayload)
    (pTok : Nat) (selfP pP : PersonR) (prD : RoomR)
    (hself : personOf s s.selfTok = some selfP)
    (hfind_self : findPersonById s rs.id = some s.selfTok)
    (hp : personOf s pTok = some pP)
    (hfind_p : findPersonById s rp.id = some pTok)
    (hpr : roomOf s pP.roomRef = some prD)
    (hprpeople : prD.people = [s.selfTok, pTok])
    (hprmem : pP.roomRef ∈ s.roomsList)
    (hnoroom : findRoomById s raw.id = none)
    (hhand : getPersonByHandleLocal s pP.handle = some pTok)
    (hhandne : pP.handle ≠ selfP.handle)
    (hrs_id : rs.id = selfP.id) (hrs_h : rs.handle = selfP.handle) (hrs_r : rs.roomId = none)
    (hrp_id : rp.id = pP.id) (hrp_h : rp.handle = pP.handle) (hrp_r : rp.roomId = none)
    (hptok : pTok ≠ s.selfTok)
    (hndP : (s.persons.map Prod.fst).Nodup)
    (hgr : s.globalRoomTok ≠ pP.roomRef)
    (hpeople : raw.people = some [rs, rp] ∨ raw.people = some [rp, rs]) :
    saveRoom s raw =
      (pP.roomRef,
       { s with roomStore := setTok s.roomStore pP.roomRef (roomDataUpdate prD raw) }) ∧
    roomOf (saveRoom s raw).2 pP.roomRef = some (roomDataUpdate prD raw) ∧
    (roomDataUpdate prD raw).id = some raw.id ∧
    (roomDataUpdate prD raw).people = prD.people ∧
    getRoomForHandlesSingle (saveRoom s raw).2 [pP.handle] = some pP.roomRef ∧
    (saveRoom (saveRoom s raw).2 raw).1 = pP.roomRef ∧
    (saveRoom (saveRoom s raw).2 raw).2.roomsList = s.roomsList ∧
    (saveRoom (saveRoom s raw).2 raw).2.nextTok = s.nextTok := by
  have hmain := saveRoom_alias s raw rs rp pTok selfP pP prD hself hfind_self hp hfind_p hpr
    hnoroom hrs_id hrs_h hrs_r hrp_id hrp_h hrp_r hptok hndP hpeople
  have hgp : globalPeople { s with roomStore := setTok s.roomStore pP.roomRef (roomDataUpdate prD raw) } =
      globalPeople s := by
    simp only [globalPeople, roomOf]
    rw [lookupTok_setTok_ne _ _ _ _ hgr]
  have hroomNew : roomOf { s with roomStore := setTok s.roomStore pP.roomRef (roomDataUpdate prD raw) } pP.roomRef =
      some (roomDataUpdate prD raw) :=
    lookupTok_setTok_self _ _ _ _ hpr
  have hhand2 : getPersonByHandleLocal
      { s with roomStore := setTok s.roomStore pP.roomRef (roomDataUpdate prD raw) } pP.handle =
      some pTok := by
    rw [getPersonByHandleLocal_congr
      { s with roomStore := setTok s.roomStore pP.roomRef (roomDataUpdate prD raw) } s pP.handle rfl hgp]
    exact hhand
  have hselfh : selfHandleOf { s with roomStore := setTok s.roomStore pP.roomRef (roomDataUpdate prD raw) } =
      selfP.handle := by
    simp [selfHandleOf, personOf, show lookupTok s.persons s.selfTok = some selfP from hself]
  have hforhandles : getRoomForHandlesSingle
      { s with roomStore := setTok s.roomStore pP.roomRef (roomDataUpdate prD raw) } [pP.handle] =
      some pP.roomRef := by
    simp [getRoomForHandlesSingle, hselfh, hhand2, hhandne, Ne.symm hhandne, personOf,
      show lookupTok s.persons pTok = some pP from hp]
  have hnone_all : ∀ b ∈ s.roomsList,
      ¬ ((match roomOf s b with
          | some rd => rd.id == some raw.id
          | none => false) = true) := by
    intro b hb
    exact List.find?_eq_none.mp hnoroom b hb
  have hfound2 : findRoomById { s with roomStore := setTok s.roomStore pP.roomRef (roomDataUpdate prD raw) } raw.id =
      some pP.roomRef := by
    apply find?_mem_unique
    · exact hprmem
    · show (match roomOf { s with roomStore := setTok s.roomStore pP.roomRef (roomDataUpdate prD raw) } pP.roomRef with
            | some rd => rd.id == some raw.id
            | none => false) = true
      rw [hroomNew]
      simp [roomDataUpdate]
    · intro b hb hpb
      by_contra hne
      have hsame : roomOf { s with roomStore := setTok s.roomStore pP.roomRef (roomDataUpdate prD raw) } b =
          roomOf s b := lookupTok_setTok_ne _ _ _ _ hne
      rw [hsame] at hpb
      exact hnone_all b hb hpb
  have hupd := saveRoom_update_pair
    { s with roomStore := setTok s.roomStore pP.roomRef (roomDataUpdate prD raw) }
    raw rs rp pTok pP.roomRef selfP pP (roomDataUpdate prD raw)
    hself
    (by rw [findPersonById_congr
        { s with roomStore := setTok s.roomStore pP.roomRef (roomDataUpdate prD raw) } s rs.id rfl hgp]
        exact hfind_self)
    hp
    (by rw [findPersonById_congr
        { s with roomStore := setTok s.roomStore pP.roomRef (roomDataUpdate prD raw) } s rp.id rfl hgp]
        exact hfind_p)
    hfound2
    hroomNew
    (by simp [roomDataUpdate, hprpeople])
    hrs_id hrs_h hrs_r hrp_id hrp_h hrp_r hptok hndP hgr hpeople
  refine ⟨hmain, ?_, by simp [roomDataUpdate], by simp [roomDataUpdate], ?_, ?_, ?_, ?_⟩
  · rw [hmain]
    exact hroomNew
  · rw [hmain]
    exact hforhandles
  · rw [hmain]
    exact hupd.1
  · rw [hmain]
    exact hupd.2.1
  · rw [hmain]
    exact hupd.2.2.1

/-- A concrete well-formed cache for the C1 witness: the current user (token
0, person id 1) and peter (token 1, person id 2, pair room token 11), the
global room (token 10) holding both, and the pair room registered in the
rooms list. -/
def c1StateW : ChatState :=
  { selfTok := 0, globalRoomTok := 10,
    persons := [(0, { id := 1, handle := "self", roomRef := 10 }),
                (1, { id := 2, handle := "peter", roomRef := 11 })],
    roomStore := [(10, { people := [0, 1] }), (11, { people := [0, 1] })],
    roomsList := [11], nextTok := 12 }

/-- A concrete pair payload for the C1 witness. -/
def c1RawW : RoomPayload :=
  { id := 5, title := some "t",
    people := some [{ id := 1, handle := "self" }, { id := 2, handle := "peter" }] }

/-- Witness for `c1_pair_room_aliasing` at the concrete cache and payload. -/
theorem c1_pair_room_aliasing_witness :
    getRoomForHandlesSingle (saveRoom c1StateW c1RawW).2 ["peter"] = some 11 :=
  (c1_pair_room_aliasing c1StateW c1RawW
    { id := 1, handle := "self" } { id := 2, handle := "peter" } 1
    { id := 1, handle := "self", roomRef := 10 }
    { id := 2, handle := "peter", roomRef := 11 }
    { people := [0, 1] }
    (by rfl) (by rfl) (by rfl) (by rfl) (by rfl) (by rfl) (by decide) (by rfl)
    (by rfl) (by decide) (by rfl) (by rfl) (by rfl) (by rfl) (by rfl) (by rfl)
    (by decide) (by decide) (by decide) (Or.inl rfl)).2.2.2.2.1
